import Mathlib

/-!
Verification development for the hwpxdiet document optimizer.

The embedding models `services/optimizerService.ts`:
`compressImage`, `optimizeZipBasedDoc` and `optimizePDF`.
External collaborators (the Canvas image codec, JSZip serialization,
pdf-lib flate encoding and document saving) are modelled as an explicit
environment record of abstract functions; everything the walkers compute
themselves (entry selection, skip rules, accept rules, progress values,
result assembly, the PDF reference set and in-place reassignment) is
translated directly from the source.
-/

/-- Character-list prefix test, used to build the string predicates below. -/
def listIsPre : List Char → List Char → Bool
  | [], _ => true
  | _ :: _, [] => false
  | a :: as, b :: bs => a == b && listIsPre as bs

/-- Substring occurrence test on character lists (JS `String.includes`). -/
def listHasSub : List Char → List Char → Bool
  | pat, [] => listIsPre pat []
  | pat, c :: rest => listIsPre pat (c :: rest) || listHasSub pat rest

/-- JS `s.includes(pat)`. -/
def strHasSub (s pat : String) : Bool := listHasSub pat.data s.data

/-- JS `s.endsWith(suffix)`. -/
def strEndsWith (s suffix : String) : Bool :=
  listIsPre suffix.data.reverse s.data.reverse

/-- JS `s.toLowerCase()` (ASCII case folding suffices for the paths used). -/
def strToLower (s : String) : String := ⟨s.data.map Char.toLower⟩

/-- A JS `Blob`: a mime type plus its bytes. -/
structure Blob where
  type : String
  bytes : List Nat
deriving DecidableEq

/-- JS `blob.size`. -/
def Blob.size (b : Blob) : Nat := b.bytes.length

/-- A JS `File`: a name plus its content blob. -/
structure JFile where
  name : String
  blob : Blob
deriving DecidableEq

/-- JS `file.size`. -/
def JFile.size (f : JFile) : Nat := f.blob.bytes.length

/-- The canvas state built inside `compressImage`: dimensions from the
decoded image, whether an opaque white rectangle was painted before
`drawImage`, and the drawn source bytes. -/
structure Canvas where
  width : Nat
  height : Nat
  whiteFill : Bool
  image : List Nat
deriving DecidableEq

/-- The value resolved by `compressImage`: the blob produced by
`canvas.toBlob` (its mime is the requested target mime) together with the
canvas it was encoded from. -/
structure CompressOut where
  mime : String
  bytes : List Nat
  canvas : Canvas
deriving DecidableEq

/-- A primitive PDF value as far as the walker inspects one. -/
inductive PdfVal where
  | name (s : String)
  | num (n : Int)
  | other (tag : Nat)
deriving DecidableEq

/-- A PDF dictionary: keyed entries, first binding wins on lookup. -/
abbrev PdfDict := List (String × PdfVal)

/-- A PDF indirect object as far as the walker discriminates:
`PDFRawStream` (dict + raw contents), a plain `PDFDict`, or anything else. -/
inductive PdfObj where
  | rawStream (dict : PdfDict) (contents : List Nat)
  | dict (d : PdfDict)
  | other
deriving DecidableEq

/-- The object table of `pdfDoc.context`: reference number to object. -/
abbrev PdfCtx := List (Nat × PdfObj)

/-- One entry of a page's `XObject` dictionary: a `PDFRef` or not. -/
inductive XEntry where
  | ref (r : Nat)
  | nonRef
deriving DecidableEq

/-- A page's `Resources` dictionary as far as the walker reads it:
`xobject = none` models a missing or non-dictionary `XObject` entry. -/
structure PageRes where
  xobject : Option (List (String × XEntry))
deriving DecidableEq

/-- A page node: `resources = none` models a missing or non-dictionary
`Resources` entry. -/
structure Page where
  resources : Option PageRes
deriving DecidableEq

/-- A loaded PDF document: its object table and its pages. -/
structure PdfDocM where
  objs : PdfCtx
  pages : List Page

/-- The external collaborators: the Canvas codec (`decode` models image
loading, `encode` models `canvas.toBlob`), pdf-lib's flate body encoder,
JSZip's `generateAsync`, and pdf-lib's `save` (the zero-image path passes
a different option set, hence the separate `save0`). -/
structure Env where
  decode : List Nat → Option (Nat × Nat)
  encode : String → Nat → Canvas → Option (List Nat)
  flate : List Nat → List Nat
  generate : List (String × Blob) → Blob
  save : PdfDocM → List Nat
  save0 : PdfDocM → List Nat

/-- `originalType.includes('png') || originalType.includes('gif')`. -/
def isTransparentFormat (t : String) : Bool :=
  strHasSub t "png" || strHasSub t "gif"

/-- Target mime chosen by `compressImage`. -/
def targetMimeOf (t : String) : String :=
  if isTransparentFormat t then "image/webp" else "image/jpeg"

/-- `compressImage(blob, quality)`: decode, paint white iff targeting JPEG,
draw, then encode at the requested quality; `none` models a rejected
promise (load or encode failure). -/
def compressImage (env : Env) (blob : Blob) (quality : Nat) : Option CompressOut :=
  let target := targetMimeOf blob.type
  match env.decode blob.bytes with
  | none => none
  | some wh =>
    let canvas : Canvas := ⟨wh.1, wh.2, target == "image/jpeg", blob.bytes⟩
    match env.encode target quality canvas with
    | none => none
    | some out => some ⟨target, out, canvas⟩

/-- The path filter `/\.(jpe?g|png|gif|bmp)$/i`. -/
def isImagePath (path : String) : Bool :=
  let l := strToLower path
  strEndsWith l ".jpg" || strEndsWith l ".jpeg" || strEndsWith l ".png" ||
    strEndsWith l ".gif" || strEndsWith l ".bmp"

/-- Log line for the start of a ZIP run. -/
def startMsg (name : String) : String := "Starting optimization for: " ++ name

/-- Log line for the image count. -/
def foundMsg (n : Nat) : String := "Found " ++ toString n ++ " images."

/-- Log line for a skipped PNG. -/
def skipMsg (path : String) : String := "Skipping PNG as requested: " ++ path

/-- Console line for a failed ZIP entry. -/
def zipErrMsg (path : String) : String := "Error processing " ++ path

/-- Log line for the start of a PDF run. -/
def pdfStartMsg (name : String) : String := "Starting PDF optimization: " ++ name

/-- Console line for a failed PDF image. -/
def pdfErrMsg : String := "Error compressing PDF image"

/-- JS `Math.round(a / b)` for non-negative arguments: floor(a/b + 1/2). -/
def jsRound (a b : Nat) : Nat := (2 * a + b) / (2 * b)

/-- Per-entry progress of the ZIP loop: `10 + Math.round((i+1)/n * 80)`. -/
def zipProg (n k : Nat) : Nat := 10 + jsRound (80 * k) n

/-- Per-image progress of the PDF loop: `15 + Math.round(p/T * 75)`. -/
def pdfProg (T k : Nat) : Nat := 15 + jsRound (75 * k) T

/-- `zip.files[path]` (defaults to an empty blob; the walker only reads
paths that exist). -/
def getFile : List (String × Blob) → String → Blob
  | [], _ => ⟨"", []⟩
  | (p, b) :: rest, path => if p = path then b else getFile rest path

/-- `zip.file(path, blob)`: replace the entry at `path`. -/
def setFile : List (String × Blob) → String → Blob → List (String × Blob)
  | [], _, _ => []
  | (p, bb) :: rest, path, b =>
    if p = path then (path, b) :: setFile rest path b
    else (p, bb) :: setFile rest path b

/-- Accumulated effects of the ZIP per-entry loop. -/
structure ZipLoopOut where
  files : List (String × Blob)
  trace : List Nat
  errors : List String
  logs : List String

/-- The per-entry loop of `optimizeZipBasedDoc` (lines 86-109): skip PNGs
when requested, recompress, accept only strictly smaller output, record
console errors, report progress after each non-skipped entry. -/
def zipLoop (env : Env) (quality : Nat) (skipPng : Bool) (n : Nat) :
    List String → List (String × Blob) → Nat → ZipLoopOut
  | [], st, _ => ⟨st, [], [], []⟩
  | path :: rest, st, i =>
    if skipPng && strEndsWith (strToLower path) ".png" then
      let o := zipLoop env quality skipPng n rest st (i+1)
      ⟨o.files, o.trace, o.errors, skipMsg path :: o.logs⟩
    else
      match compressImage env (getFile st path) quality with
      | some c =>
        let st2 := if c.bytes.length < (getFile st path).bytes.length
          then setFile st path ⟨c.mime, c.bytes⟩ else st
        let o := zipLoop env quality skipPng n rest st2 (i+1)
        ⟨o.files, zipProg n (i+1) :: o.trace, o.errors, o.logs⟩
      | none =>
        let o := zipLoop env quality skipPng n rest st (i+1)
        ⟨o.files, zipProg n (i+1) :: o.trace, zipErrMsg path :: o.errors, o.logs⟩

/-- The result record returned to the UI (`types.ts`). -/
structure OptimizationResult where
  originalSize : Nat
  compressedSize : Nat
  fileName : String
  reductionPercentage : ℚ
  blob : Blob
  optimizationLogs : List String
deriving DecidableEq

/-- A walker run: its result, the progress values delivered to the sink in
order, and the console error lines. -/
structure RunOut where
  result : OptimizationResult
  progress : List Nat
  consoleErrors : List String
deriving DecidableEq

/-- `optimizeZipBasedDoc(file, quality, skipPng, onProgress)`;
`zipFiles` is the entry table produced by `JSZip.loadAsync(file)`. -/
def optimizeZipBasedDoc (env : Env) (file : JFile)
    (zipFiles : List (String × Blob)) (quality : Nat) (skipPng : Bool) : RunOut :=
  let originalSize := file.size
  let imageFiles := (zipFiles.map Prod.fst).filter isImagePath
  let logs1 := [startMsg file.name, foundMsg imageFiles.length]
  if imageFiles.length = 0 then
    { result :=
        { originalSize := originalSize
          compressedSize := originalSize
          fileName := file.name
          reductionPercentage := 0
          blob := file.blob
          optimizationLogs := logs1 }
      progress := [5, 100]
      consoleErrors := [] }
  else
    let n := imageFiles.length
    let o := zipLoop env quality skipPng n imageFiles zipFiles 0
    let resultBlob := env.generate o.files
    { result :=
        { originalSize := originalSize
          compressedSize := resultBlob.size
          fileName := file.name
          reductionPercentage :=
            max 0 (((originalSize : ℚ) - (resultBlob.size : ℚ)) / (originalSize : ℚ) * 100)
          blob := resultBlob
          optimizationLogs := logs1 ++ o.logs }
      progress := 5 :: o.trace ++ [100]
      consoleErrors := o.errors }

/-- `dict.get(PDFName.of(key))`. -/
def dictGet : PdfDict → String → Option PdfVal
  | [], _ => none
  | (k, v) :: rest, key => if k = key then some v else dictGet rest key

/-- `dict.has(PDFName.of(key))`. -/
def dictHas (d : PdfDict) (key : String) : Bool := (dictGet d key).isSome

/-- `pdfDoc.context.lookup(ref)`. -/
def lookupObj : PdfCtx → Nat → Option PdfObj
  | [], _ => none
  | (k, o) :: rest, r => if k = r then some o else lookupObj rest r

/-- `pdfDoc.context.assign(ref, obj)`. -/
def ctxAssign : PdfCtx → Nat → PdfObj → PdfCtx
  | [], _, _ => []
  | (p, ob) :: rest, r, o =>
    if p = r then (r, o) :: ctxAssign rest r o
    else (p, ob) :: ctxAssign rest r o

/-- `Set.add` on the reference set, preserving insertion order. -/
def setAdd (s : List Nat) (r : Nat) : List Nat :=
  if r ∈ s then s else s ++ [r]

/-- Is the looked-up XObject an image (`Subtype === Image` on a dict or a
raw stream)? -/
def isImageObj (ctx : PdfCtx) (r : Nat) : Bool :=
  match lookupObj ctx r with
  | some (PdfObj.rawStream d _) => dictGet d "Subtype" == some (PdfVal.name "Image")
  | some (PdfObj.dict d) => dictGet d "Subtype" == some (PdfVal.name "Image")
  | _ => false

/-- Scan one page's XObject entries, adding image references to the set. -/
def collectEntries (ctx : PdfCtx) : List Nat → List (String × XEntry) → List Nat
  | acc, [] => acc
  | acc, (_, XEntry.nonRef) :: rest => collectEntries ctx acc rest
  | acc, (_, XEntry.ref r) :: rest =>
    collectEntries ctx (if isImageObj ctx r then setAdd acc r else acc) rest

/-- Scan one page (lines 147-166): bail out on missing or non-dictionary
`Resources` or `XObject`. -/
def collectFromPage (ctx : PdfCtx) (acc : List Nat) (pg : Page) : List Nat :=
  match pg.resources with
  | none => acc
  | some res =>
    match res.xobject with
    | none => acc
    | some entries => collectEntries ctx acc entries

/-- The deduplicated image reference set, in first-discovery order. -/
def collectImageRefs (doc : PdfDocM) : List Nat :=
  doc.pages.foldl (collectFromPage doc.objs) []

/-- The dictionary of the replacement stream built by
`pdfDoc.context.flateStream` (lines 207-215): `Width`/`Height` carried
forward, `BitsPerComponent` defaulting to 8, `ColorSpace` defaulting to
`DeviceRGB`, and the fixed `DCTDecode` filter. -/
def replacementDict (d : PdfDict) : PdfDict :=
  [("Type", PdfVal.name "XObject"), ("Subtype", PdfVal.name "Image")] ++
  (match dictGet d "Width" with | some v => [("Width", v)] | none => []) ++
  (match dictGet d "Height" with | some v => [("Height", v)] | none => []) ++
  [("BitsPerComponent", (dictGet d "BitsPerComponent").getD (PdfVal.num 8)),
   ("ColorSpace", (dictGet d "ColorSpace").getD (PdfVal.name "DeviceRGB")),
   ("Filter", PdfVal.name "DCTDecode")]

/-- Accumulated effects of the PDF per-reference loop: the mutated object
table, the progress trace, the console errors, and the references on which
the recompressor was invoked. -/
structure PdfLoopOut where
  ctx : PdfCtx
  trace : List Nat
  errors : List String
  calls : List Nat

/-- The per-reference loop of `optimizePDF` (lines 184-225): skip non-raw
streams, skip soft-masked images when requested, recompress treating the
stream contents as JPEG bytes, accept only strictly smaller output by
assigning a replacement flate stream onto the same reference, and report
progress after each recompression attempt. -/
def pdfLoop (env : Env) (quality : Nat) (skipPng : Bool) (T : Nat) :
    List Nat → PdfCtx → Nat → PdfLoopOut
  | [], ctx, _ => ⟨ctx, [], [], []⟩
  | r :: rest, ctx, p =>
    match lookupObj ctx r with
    | some (PdfObj.rawStream d contents) =>
      if skipPng && dictHas d "SMask" then
        pdfLoop env quality skipPng T rest ctx (p+1)
      else
        match compressImage env ⟨"image/jpeg", contents⟩ quality with
        | some c =>
          let ctx2 := if c.bytes.length < contents.length
            then ctxAssign ctx r
              (PdfObj.rawStream (replacementDict d) (env.flate c.bytes))
            else ctx
          let o := pdfLoop env quality skipPng T rest ctx2 (p+1)
          ⟨o.ctx, pdfProg T (p+1) :: o.trace, o.errors, r :: o.calls⟩
        | none =>
          let o := pdfLoop env quality skipPng T rest ctx (p+1)
          ⟨o.ctx, pdfProg T (p+1) :: o.trace, pdfErrMsg :: o.errors, r :: o.calls⟩
    | _ => pdfLoop env quality skipPng T rest ctx (p+1)

/-- `optimizePDF(file, quality, skipPng, onProgress)`; `doc` is the object
graph produced by `PDFDocument.load` with `ignoreEncryption`. -/
def optimizePDF (env : Env) (file : JFile) (doc : PdfDocM)
    (quality : Nat) (skipPng : Bool) : RunOut :=
  let originalSize := file.size
  let logs := [pdfStartMsg file.name]
  let imageRefs := collectImageRefs doc
  let totalImages := imageRefs.length
  if totalImages = 0 then
    let resultBytes := env.save0 doc
    { result :=
        { originalSize := originalSize
          compressedSize := resultBytes.length
          fileName := file.name
          reductionPercentage :=
            ((originalSize : ℚ) - (resultBytes.length : ℚ)) / (originalSize : ℚ) * 100
          blob := ⟨"application/pdf", resultBytes⟩
          optimizationLogs := logs }
      progress := [10, 100]
      consoleErrors := [] }
  else
    let o := pdfLoop env quality skipPng totalImages imageRefs doc.objs 0
    let resultBytes := env.save { objs := o.ctx, pages := doc.pages }
    { result :=
        { originalSize := originalSize
          compressedSize := resultBytes.length
          fileName := file.name
          reductionPercentage :=
            max 0 (((originalSize : ℚ) - (resultBytes.length : ℚ)) / (originalSize : ℚ) * 100)
          blob := ⟨"application/pdf", resultBytes⟩
          optimizationLogs := logs }
      progress := 10 :: o.trace ++ [95, 100]
      consoleErrors := o.errors }

/-- The accept/reject decision applied to one ZIP entry, as a function of
its current blob. -/
def zipStep (env : Env) (quality : Nat) (skipPng : Bool) (path : String)
    (b : Blob) : Blob :=
  if skipPng && strEndsWith (strToLower path) ".png" then b
  else
    match compressImage env b quality with
    | some c => if c.bytes.length < b.bytes.length then ⟨c.mime, c.bytes⟩ else b
    | none => b

/-- The accept/reject decision applied to one raw-stream PDF image. -/
def pdfStep (env : Env) (quality : Nat) (skipPng : Bool) (d : PdfDict)
    (contents : List Nat) : PdfObj :=
  if skipPng && dictHas d "SMask" then PdfObj.rawStream d contents
  else
    match compressImage env ⟨"image/jpeg", contents⟩ quality with
    | some c =>
      if c.bytes.length < contents.length
      then PdfObj.rawStream (replacementDict d) (env.flate c.bytes)
      else PdfObj.rawStream d contents
    | none => PdfObj.rawStream d contents

/-- Reading back a freshly written entry. -/
theorem getFile_setFile_self (st : List (String × Blob)) (path : String) (b : Blob)
    (h : path ∈ st.map Prod.fst) : getFile (setFile st path b) path = b := by
  induction st with
  | nil => simp at h
  | cons e rest ih =>
    obtain ⟨p, bb⟩ := e
    simp only [setFile]
    by_cases hp : p = path
    · rw [if_pos hp]
      simp only [getFile, if_true, eq_self_iff_true]
    · rw [if_neg hp]
      simp only [getFile]
      rw [if_neg hp]
      simp only [List.map_cons, List.mem_cons] at h
      rcases h with h | h
      · exact absurd h.symm hp
      · exact ih h

/-- Writing one entry leaves the others unchanged. -/
theorem getFile_setFile_ne (st : List (String × Blob)) (q path : String) (b : Blob)
    (h : q ≠ path) : getFile (setFile st q b) path = getFile st path := by
  induction st with
  | nil => simp only [setFile]
  | cons e rest ih =>
    obtain ⟨p, bb⟩ := e
    simp only [setFile]
    by_cases hp : p = q
    · rw [if_pos hp]
      simp only [getFile]
      rw [if_neg h, if_neg (hp ▸ h : p ≠ path)]
      exact ih
    · rw [if_neg hp]
      simp only [getFile]
      by_cases hpp : p = path
      · rw [if_pos hpp, if_pos hpp]
      · rw [if_neg hpp, if_neg hpp]
        exact ih

/-- `setFile` preserves the key list. -/
theorem setFile_keys (st : List (String × Blob)) (q : String) (b : Blob) :
    (setFile st q b).map Prod.fst = st.map Prod.fst := by
  induction st with
  | nil => rfl
  | cons e rest ih =>
    obtain ⟨p, bb⟩ := e
    simp only [setFile]
    by_cases hp : p = q
    · rw [if_pos hp]
      simp only [List.map_cons, ih, hp]
    · rw [if_neg hp]
      simp only [List.map_cons, ih]

/-- Reading back a reassigned reference. -/
theorem lookupObj_assign_self (ctx : PdfCtx) (r : Nat) (o : PdfObj)
    (h : r ∈ ctx.map Prod.fst) : lookupObj (ctxAssign ctx r o) r = some o := by
  induction ctx with
  | nil => simp at h
  | cons e rest ih =>
    obtain ⟨p, ob⟩ := e
    simp only [ctxAssign]
    by_cases hp : p = r
    · rw [if_pos hp]
      simp only [lookupObj, if_true, eq_self_iff_true]
    · rw [if_neg hp]
      simp only [lookupObj]
      rw [if_neg hp]
      simp only [List.map_cons, List.mem_cons] at h
      rcases h with h | h
      · exact absurd h.symm hp
      · exact ih h

/-- Reassigning one reference leaves the others unchanged. -/
theorem lookupObj_assign_ne (ctx : PdfCtx) (q r : Nat) (o : PdfObj)
    (h : q ≠ r) : lookupObj (ctxAssign ctx q o) r = lookupObj ctx r := by
  induction ctx with
  | nil => simp only [ctxAssign]
  | cons e rest ih =>
    obtain ⟨p, ob⟩ := e
    simp only [ctxAssign]
    by_cases hp : p = q
    · rw [if_pos hp]
      simp only [lookupObj]
      rw [if_neg h, if_neg (hp ▸ h : p ≠ r)]
      exact ih
    · rw [if_neg hp]
      simp only [lookupObj]
      by_cases hpp : p = r
      · rw [if_pos hpp, if_pos hpp]
      · rw [if_neg hpp, if_neg hpp]
        exact ih

/-- A successful lookup means the reference is a key of the table. -/
theorem lookupObj_mem (ctx : PdfCtx) (r : Nat) (o : PdfObj)
    (h : lookupObj ctx r = some o) : r ∈ ctx.map Prod.fst := by
  induction ctx with
  | nil => simp [lookupObj] at h
  | cons e rest ih =>
    obtain ⟨p, ob⟩ := e
    by_cases hp : p = r
    · simp [hp]
    · simp only [lookupObj, if_neg hp] at h
      simp [ih h]

/-- `ctxAssign` preserves the key list. -/
theorem ctxAssign_keys (ctx : PdfCtx) (q : Nat) (o : PdfObj) :
    (ctxAssign ctx q o).map Prod.fst = ctx.map Prod.fst := by
  induction ctx with
  | nil => rfl
  | cons e rest ih =>
    obtain ⟨p, ob⟩ := e
    simp only [ctxAssign]
    by_cases hp : p = q
    · rw [if_pos hp]
      simp only [List.map_cons, ih, hp]
    · rw [if_neg hp]
      simp only [List.map_cons, ih]

/-- `jsRound` is monotone in the numerator. -/
theorem jsRound_mono (a b c : Nat) (h : a ≤ c) : jsRound a b ≤ jsRound c b :=
  Nat.div_le_div_right (by omega)

/-- `jsRound a b ≤ c` whenever `a ≤ c * b`. -/
theorem jsRound_le (a b c : Nat) (h : a ≤ c * b) : jsRound a b ≤ c := by
  rcases Nat.eq_zero_or_pos b with hb | hb
  · simp [jsRound, hb]
  · have h2 : 0 < 2 * b := by omega
    have h3 : 2 * a + b < (c + 1) * (2 * b) := by nlinarith
    have h4 := (Nat.div_lt_iff_lt_mul h2).mpr h3
    exact Nat.lt_succ_iff.mp h4

/-- Per-entry ZIP progress is monotone. -/
theorem zipProg_mono (n k k2 : Nat) (h : k ≤ k2) : zipProg n k ≤ zipProg n k2 :=
  Nat.add_le_add_left (jsRound_mono _ _ _ (by omega)) 10

/-- Per-entry ZIP progress stays at or below 90. -/
theorem zipProg_le_90 (n k : Nat) (h : k ≤ n) : zipProg n k ≤ 90 := by
  have h1 : jsRound (80 * k) n ≤ 80 := jsRound_le _ _ _ (by omega)
  simp only [zipProg]; omega

/-- Per-image PDF progress is monotone. -/
theorem pdfProg_mono (T k k2 : Nat) (h : k ≤ k2) : pdfProg T k ≤ pdfProg T k2 :=
  Nat.add_le_add_left (jsRound_mono _ _ _ (by omega)) 15

/-- Per-image PDF progress stays at or below 90. -/
theorem pdfProg_le_90 (T k : Nat) (h : k ≤ T) : pdfProg T k ≤ 90 := by
  have h1 : jsRound (75 * k) T ≤ 75 := jsRound_le _ _ _ (by omega)
  simp only [pdfProg]; omega

/-- The ZIP loop never changes the set of entry paths. -/
theorem zipLoop_files_keys (env : Env) (quality : Nat) (skipPng : Bool) (n : Nat) :
    ∀ (paths : List String) (st : List (String × Blob)) (i : Nat),
    (zipLoop env quality skipPng n paths st i).files.map Prod.fst = st.map Prod.fst := by
  intro paths
  induction paths with
  | nil => intro st i; simp [zipLoop]
  | cons path rest ih =>
    intro st i
    simp only [zipLoop]
    by_cases hskip : (skipPng && strEndsWith (strToLower path) ".png") = true
    · rw [if_pos hskip]
      exact ih st (i+1)
    · rw [if_neg hskip]
      cases hc : compressImage env (getFile st path) quality with
      | none => simpa using ih st (i+1)
      | some c =>
        simp only []
        by_cases hlt : c.bytes.length < (getFile st path).bytes.length
        · rw [if_pos hlt]
          rw [ih (setFile st path ⟨c.mime, c.bytes⟩) (i+1)]
          exact setFile_keys st path ⟨c.mime, c.bytes⟩
        · rw [if_neg hlt]
          exact ih st (i+1)

/-- Entries whose path is not in the worklist are untouched by the ZIP loop. -/
theorem zipLoop_not_mem (env : Env) (quality : Nat) (skipPng : Bool) (n : Nat) :
    ∀ (paths : List String) (st : List (String × Blob)) (i : Nat) (path : String),
    path ∉ paths →
    getFile (zipLoop env quality skipPng n paths st i).files path = getFile st path := by
  intro paths
  induction paths with
  | nil => intro st i path _; simp [zipLoop]
  | cons q rest ih =>
    intro st i path hnm
    have hq : q ≠ path := fun hc => hnm (by simp [hc])
    have hrest : path ∉ rest := fun hc => hnm (by simp [hc])
    simp only [zipLoop]
    by_cases hskip : (skipPng && strEndsWith (strToLower q) ".png") = true
    · rw [if_pos hskip]
      exact ih st (i+1) path hrest
    · rw [if_neg hskip]
      cases hc : compressImage env (getFile st q) quality with
      | none => simpa using ih st (i+1) path hrest
      | some c =>
        simp only []
        by_cases hlt : c.bytes.length < (getFile st q).bytes.length
        · rw [if_pos hlt]
          rw [ih (setFile st q ⟨c.mime, c.bytes⟩) (i+1) path hrest]
          exact getFile_setFile_ne st q path ⟨c.mime, c.bytes⟩ hq
        · rw [if_neg hlt]
          exact ih st (i+1) path hrest

/-- The fate of one worklist entry: the final bytes at `path` are exactly
the accept/reject decision `zipStep` applied to its original blob. -/
theorem zipLoop_at (env : Env) (quality : Nat) (skipPng : Bool) (n : Nat) :
    ∀ (pre post : List String) (st : List (String × Blob)) (i : Nat) (path : String),
    path ∉ pre → path ∉ post → path ∈ st.map Prod.fst →
    getFile (zipLoop env quality skipPng n (pre ++ path :: post) st i).files path =
      zipStep env quality skipPng path (getFile st path) := by
  intro pre
  induction pre with
  | nil =>
    intro post st i path _ hpost hkey
    simp only [List.nil_append, zipLoop]
    by_cases hskip : (skipPng && strEndsWith (strToLower path) ".png") = true
    · rw [if_pos hskip]
      rw [zipLoop_not_mem env quality skipPng n post st (i+1) path hpost]
      simp [zipStep, hskip]
    · rw [if_neg hskip]
      cases hc : compressImage env (getFile st path) quality with
      | none =>
        simp only []
        rw [zipLoop_not_mem env quality skipPng n post st (i+1) path hpost]
        simp [zipStep, hskip, hc]
      | some c =>
        simp only []
        by_cases hlt : c.bytes.length < (getFile st path).bytes.length
        · rw [if_pos hlt]
          rw [zipLoop_not_mem env quality skipPng n post _ (i+1) path hpost]
          rw [getFile_setFile_self st path ⟨c.mime, c.bytes⟩ hkey]
          simp [zipStep, hskip, hc, hlt]
        · rw [if_neg hlt]
          rw [zipLoop_not_mem env quality skipPng n post st (i+1) path hpost]
          simp [zipStep, hskip, hc, hlt]
  | cons q pre2 ih =>
    intro post st i path hpre hpost hkey
    have hq : q ≠ path := fun hc => hpre (by simp [hc])
    have hpre2 : path ∉ pre2 := fun hc => hpre (by simp [hc])
    simp only [List.cons_append, zipLoop]
    by_cases hskip : (skipPng && strEndsWith (strToLower q) ".png") = true
    · rw [if_pos hskip]
      exact ih post st (i+1) path hpre2 hpost hkey
    · rw [if_neg hskip]
      cases hc : compressImage env (getFile st q) quality with
      | none => simpa using ih post st (i+1) path hpre2 hpost hkey
      | some c =>
        simp only []
        by_cases hlt : c.bytes.length < (getFile st q).bytes.length
        · rw [if_pos hlt]
          have hkey2 : path ∈ (setFile st q ⟨c.mime, c.bytes⟩).map Prod.fst := by
            rw [setFile_keys]; exact hkey
          have h2 := ih post (setFile st q ⟨c.mime, c.bytes⟩) (i+1) path hpre2 hpost hkey2
          rw [getFile_setFile_ne st q path ⟨c.mime, c.bytes⟩ hq] at h2
          exact h2
        · rw [if_neg hlt]
          exact ih post st (i+1) path hpre2 hpost hkey

/-- A failed recompression of a worklist entry leaves a console error line. -/
theorem zipLoop_err (env : Env) (quality : Nat) (skipPng : Bool) (n : Nat) :
    ∀ (pre post : List String) (st : List (String × Blob)) (i : Nat) (path : String),
    path ∉ pre →
    (skipPng && strEndsWith (strToLower path) ".png") = false →
    compressImage env (getFile st path) quality = none →
    zipErrMsg path ∈ (zipLoop env quality skipPng n (pre ++ path :: post) st i).errors := by
  intro pre
  induction pre with
  | nil =>
    intro post st i path _ hskip hc
    simp only [List.nil_append, zipLoop]
    rw [if_neg (by simp [hskip])]
    rw [hc]
    simp
  | cons q pre2 ih =>
    intro post st i path hpre hskip hc
    have hq : q ≠ path := fun h2 => hpre (by simp [h2])
    have hpre2 : path ∉ pre2 := fun h2 => hpre (by simp [h2])
    simp only [List.cons_append, zipLoop]
    by_cases hskipq : (skipPng && strEndsWith (strToLower q) ".png") = true
    · rw [if_pos hskipq]
      exact ih post st (i+1) path hpre2 hskip hc
    · rw [if_neg hskipq]
      cases hcq : compressImage env (getFile st q) quality with
      | none =>
        simp only [List.mem_cons]
        right
        exact ih post st (i+1) path hpre2 hskip hc
      | some c =>
        simp only []
        by_cases hlt : c.bytes.length < (getFile st q).bytes.length
        · rw [if_pos hlt]
          have hc2 : compressImage env
              (getFile (setFile st q ⟨c.mime, c.bytes⟩) path) quality = none := by
            rw [getFile_setFile_ne st q path ⟨c.mime, c.bytes⟩ hq]
            exact hc
          exact ih post (setFile st q ⟨c.mime, c.bytes⟩) (i+1) path hpre2 hskip hc2
        · rw [if_neg hlt]
          exact ih post st (i+1) path hpre2 hskip hc

/-- With `skipPng = true` the ZIP loop never mutates a `.png` entry. -/
theorem zipLoop_png_stable (env : Env) (quality : Nat) (n : Nat) :
    ∀ (paths : List String) (st : List (String × Blob)) (i : Nat) (path : String),
    strEndsWith (strToLower path) ".png" = true →
    getFile (zipLoop env quality true n paths st i).files path = getFile st path := by
  intro paths
  induction paths with
  | nil => intro st i path _; simp [zipLoop]
  | cons q rest ih =>
    intro st i path hpng
    simp only [zipLoop]
    by_cases hq : q = path
    · rw [if_pos (by simp [hq, hpng])]
      exact ih st (i+1) path hpng
    · by_cases hskip : (true && strEndsWith (strToLower q) ".png") = true
      · rw [if_pos hskip]
        exact ih st (i+1) path hpng
      · rw [if_neg hskip]
        cases hc : compressImage env (getFile st q) quality with
        | none => simpa using ih st (i+1) path hpng
        | some c =>
          simp only []
          by_cases hlt : c.bytes.length < (getFile st q).bytes.length
          · rw [if_pos hlt]
            rw [ih (setFile st q ⟨c.mime, c.bytes⟩) (i+1) path hpng]
            exact getFile_setFile_ne st q path ⟨c.mime, c.bytes⟩ hq
          · rw [if_neg hlt]
            exact ih st (i+1) path hpng

/-- Every ZIP progress value reported by the loop is `zipProg n k` for some
step index `k` inside the worklist range. -/
theorem zipLoop_trace_shape (env : Env) (quality : Nat) (skipPng : Bool) (n : Nat) :
    ∀ (paths : List String) (st : List (String × Blob)) (i : Nat),
    ∀ x ∈ (zipLoop env quality skipPng n paths st i).trace,
    ∃ k, i < k ∧ k ≤ i + paths.length ∧ x = zipProg n k := by
  intro paths
  induction paths with
  | nil => intro st i x hx; simp [zipLoop] at hx
  | cons path rest ih =>
    intro st i x hx
    simp only [zipLoop] at hx
    by_cases hskip : (skipPng && strEndsWith (strToLower path) ".png") = true
    · rw [if_pos hskip] at hx
      obtain ⟨k, h1, h2, h3⟩ := ih st (i+1) x hx
      exact ⟨k, by omega, by simp only [List.length_cons]; omega, h3⟩
    · rw [if_neg hskip] at hx
      cases hc : compressImage env (getFile st path) quality with
      | none =>
        rw [hc] at hx
        simp only [List.mem_cons] at hx
        rcases hx with hx | hx
        · exact ⟨i+1, by omega, by simp only [List.length_cons]; omega, hx⟩
        · obtain ⟨k, h1, h2, h3⟩ := ih st (i+1) x hx
          exact ⟨k, by omega, by simp only [List.length_cons]; omega, h3⟩
      | some c =>
        rw [hc] at hx
        simp only [List.mem_cons] at hx
        rcases hx with hx | hx
        · exact ⟨i+1, by omega, by simp only [List.length_cons]; omega, hx⟩
        · obtain ⟨k, h1, h2, h3⟩ :=
            ih (if c.bytes.length < (getFile st path).bytes.length
                then setFile st path ⟨c.mime, c.bytes⟩ else st) (i+1) x hx
          exact ⟨k, by omega, by simp only [List.length_cons]; omega, h3⟩

/-- The ZIP progress trace is non-decreasing and bounded below by the next
step's value. -/
theorem zipLoop_trace_pw (env : Env) (quality : Nat) (skipPng : Bool) (n : Nat) :
    ∀ (paths : List String) (st : List (String × Blob)) (i : Nat),
    ((zipLoop env quality skipPng n paths st i).trace).Pairwise (· ≤ ·) ∧
    ∀ x ∈ (zipLoop env quality skipPng n paths st i).trace, zipProg n (i+1) ≤ x := by
  intro paths
  induction paths with
  | nil => intro st i; simp [zipLoop]
  | cons path rest ih =>
    intro st i
    simp only [zipLoop]
    by_cases hskip : (skipPng && strEndsWith (strToLower path) ".png") = true
    · rw [if_pos hskip]
      refine ⟨(ih st (i+1)).1, fun x hx => ?_⟩
      exact le_trans (zipProg_mono n (i+1) (i+2) (by omega)) ((ih st (i+1)).2 x hx)
    · rw [if_neg hskip]
      cases hc : compressImage env (getFile st path) quality with
      | none =>
        simp only [List.pairwise_cons, List.mem_cons]
        obtain ⟨hpw, hlb⟩ := ih st (i+1)
        refine ⟨⟨fun x hx => le_trans (zipProg_mono n (i+1) (i+2) (by omega)) (hlb x hx), hpw⟩,
          fun x hx => ?_⟩
        rcases hx with hx | hx
        · omega
        · exact le_trans (zipProg_mono n (i+1) (i+2) (by omega)) (hlb x hx)
      | some c =>
        simp only [List.pairwise_cons, List.mem_cons]
        obtain ⟨hpw, hlb⟩ := ih (if c.bytes.length < (getFile st path).bytes.length
          then setFile st path ⟨c.mime, c.bytes⟩ else st) (i+1)
        refine ⟨⟨fun x hx => le_trans (zipProg_mono n (i+1) (i+2) (by omega)) (hlb x hx), hpw⟩,
          fun x hx => ?_⟩
        rcases hx with hx | hx
        · omega
        · exact le_trans (zipProg_mono n (i+1) (i+2) (by omega)) (hlb x hx)

/-- References not in the worklist are untouched by the PDF loop. -/
theorem pdfLoop_not_mem (env : Env) (quality : Nat) (skipPng : Bool) (T : Nat) :
    ∀ (refs : List Nat) (ctx : PdfCtx) (p r : Nat), r ∉ refs →
    lookupObj (pdfLoop env quality skipPng T refs ctx p).ctx r = lookupObj ctx r := by
  intro refs
  induction refs with
  | nil => intro ctx p r _; simp [pdfLoop]
  | cons q rest ih =>
    intro ctx p r hnm
    have hq : q ≠ r := fun hc => hnm (by simp [hc])
    have hrest : r ∉ rest := fun hc => hnm (by simp [hc])
    simp only [pdfLoop]
    cases hlq : lookupObj ctx q with
    | none => simpa using ih ctx (p+1) r hrest
    | some obj =>
      cases obj with
      | rawStream d contents =>
        simp only []
        by_cases hskip : (skipPng && dictHas d "SMask") = true
        · rw [if_pos hskip]
          exact ih ctx (p+1) r hrest
        · rw [if_neg hskip]
          cases hc : compressImage env ⟨"image/jpeg", contents⟩ quality with
          | none => simpa using ih ctx (p+1) r hrest
          | some c =>
            simp only []
            by_cases hlt : c.bytes.length < contents.length
            · rw [if_pos hlt]
              rw [ih (ctxAssign ctx q
                  (PdfObj.rawStream (replacementDict d) (env.flate c.bytes))) (p+1) r hrest]
              exact lookupObj_assign_ne ctx q r _ hq
            · rw [if_neg hlt]
              exact ih ctx (p+1) r hrest
      | dict d => simpa using ih ctx (p+1) r hrest
      | other => simpa using ih ctx (p+1) r hrest

/-- The fate of one raw-stream image reference: the final object at `r` is
exactly the accept/reject decision `pdfStep` applied to its original
dictionary and contents. -/
theorem pdfLoop_at (env : Env) (quality : Nat) (skipPng : Bool) (T : Nat) :
    ∀ (pre post : List Nat) (ctx : PdfCtx) (p r : Nat) (d : PdfDict) (contents : List Nat),
    r ∉ pre → r ∉ post →
    lookupObj ctx r = some (PdfObj.rawStream d contents) →
    lookupObj (pdfLoop env quality skipPng T (pre ++ r :: post) ctx p).ctx r =
      some (pdfStep env quality skipPng d contents) := by
  intro pre
  induction pre with
  | nil =>
    intro post ctx p r d contents _ hpost hlr
    simp only [List.nil_append, pdfLoop]
    rw [hlr]
    simp only []
    by_cases hskip : (skipPng && dictHas d "SMask") = true
    · rw [if_pos hskip]
      rw [pdfLoop_not_mem env quality skipPng T post ctx (p+1) r hpost]
      rw [hlr]
      simp [pdfStep, hskip]
    · rw [if_neg hskip]
      cases hc : compressImage env ⟨"image/jpeg", contents⟩ quality with
      | none =>
        simp only []
        rw [pdfLoop_not_mem env quality skipPng T post ctx (p+1) r hpost]
        rw [hlr]
        simp [pdfStep, hskip, hc]
      | some c =>
        simp only []
        by_cases hlt : c.bytes.length < contents.length
        · rw [if_pos hlt]
          rw [pdfLoop_not_mem env quality skipPng T post _ (p+1) r hpost]
          rw [lookupObj_assign_self ctx r _ (lookupObj_mem ctx r _ hlr)]
          simp [pdfStep, hskip, hc, hlt]
        · rw [if_neg hlt]
          rw [pdfLoop_not_mem env quality skipPng T post ctx (p+1) r hpost]
          rw [hlr]
          simp [pdfStep, hskip, hc, hlt]
  | cons q pre2 ih =>
    intro post ctx p r d contents hpre hpost hlr
    have hq : q ≠ r := fun hc => hpre (by simp [hc])
    have hpre2 : r ∉ pre2 := fun hc => hpre (by simp [hc])
    simp only [List.cons_append, pdfLoop]
    cases hlq : lookupObj ctx q with
    | none => simpa using ih post ctx (p+1) r d contents hpre2 hpost hlr
    | some obj =>
      cases obj with
      | rawStream dq cq =>
        simp only []
        by_cases hskip : (skipPng && dictHas dq "SMask") = true
        · rw [if_pos hskip]
          exact ih post ctx (p+1) r d contents hpre2 hpost hlr
        · rw [if_neg hskip]
          cases hc : compressImage env ⟨"image/jpeg", cq⟩ quality with
          | none => simpa using ih post ctx (p+1) r d contents hpre2 hpost hlr
          | some c =>
            simp only []
            by_cases hlt : c.bytes.length < cq.length
            · rw [if_pos hlt]
              have hlr2 : lookupObj (ctxAssign ctx q
                  (PdfObj.rawStream (replacementDict dq) (env.flate c.bytes))) r =
                  some (PdfObj.rawStream d contents) := by
                rw [lookupObj_assign_ne ctx q r _ hq]
                exact hlr
              exact ih post _ (p+1) r d contents hpre2 hpost hlr2
            · rw [if_neg hlt]
              exact ih post ctx (p+1) r d contents hpre2 hpost hlr
      | dict dq => simpa using ih post ctx (p+1) r d contents hpre2 hpost hlr
      | other => simpa using ih post ctx (p+1) r d contents hpre2 hpost hlr

/-- A failed recompression of a raw-stream image leaves a console error. -/
theorem pdfLoop_err (env : Env) (quality : Nat) (skipPng : Bool) (T : Nat) :
    ∀ (pre post : List Nat) (ctx : PdfCtx) (p r : Nat) (d : PdfDict) (contents : List Nat),
    r ∉ pre →
    lookupObj ctx r = some (PdfObj.rawStream d contents) →
    (skipPng && dictHas d "SMask") = false →
    compressImage env ⟨"image/jpeg", contents⟩ quality = none →
    pdfErrMsg ∈ (pdfLoop env quality skipPng T (pre ++ r :: post) ctx p).errors := by
  intro pre
  induction pre with
  | nil =>
    intro post ctx p r d contents _ hlr hskip hc
    simp only [List.nil_append, pdfLoop]
    rw [hlr]
    simp only []
    rw [if_neg (by simp [hskip])]
    rw [hc]
    simp
  | cons q pre2 ih =>
    intro post ctx p r d contents hpre hlr hskip hc
    have hq : q ≠ r := fun h2 => hpre (by simp [h2])
    have hpre2 : r ∉ pre2 := fun h2 => hpre (by simp [h2])
    simp only [List.cons_append, pdfLoop]
    cases hlq : lookupObj ctx q with
    | none => simpa using ih post ctx (p+1) r d contents hpre2 hlr hskip hc
    | some obj =>
      cases obj with
      | rawStream dq cq =>
        simp only []
        by_cases hskipq : (skipPng && dictHas dq "SMask") = true
        · rw [if_pos hskipq]
          exact ih post ctx (p+1) r d contents hpre2 hlr hskip hc
        · rw [if_neg hskipq]
          cases hcq : compressImage env ⟨"image/jpeg", cq⟩ quality with
          | none =>
            simp only [List.mem_cons]
            right
            exact ih post ctx (p+1) r d contents hpre2 hlr hskip hc
          | some c =>
            simp only []
            by_cases hlt : c.bytes.length < cq.length
            · rw [if_pos hlt]
              have hlr2 : lookupObj (ctxAssign ctx q
                  (PdfObj.rawStream (replacementDict dq) (env.flate c.bytes))) r =
                  some (PdfObj.rawStream d contents) := by
                rw [lookupObj_assign_ne ctx q r _ hq]
                exact hlr
              exact ih post _ (p+1) r d contents hpre2 hlr2 hskip hc
            · rw [if_neg hlt]
              exact ih post ctx (p+1) r d contents hpre2 hlr hskip hc
      | dict dq => simpa using ih post ctx (p+1) r d contents hpre2 hlr hskip hc
      | other => simpa using ih post ctx (p+1) r d contents hpre2 hlr hskip hc

/-- With `skipPng = true` the PDF loop never mutates an image object whose
dictionary carries an `SMask` entry. -/
theorem pdfLoop_smask_stable (env : Env) (quality : Nat) (T : Nat) :
    ∀ (refs : List Nat) (ctx : PdfCtx) (p r : Nat) (d : PdfDict) (contents : List Nat),
    lookupObj ctx r = some (PdfObj.rawStream d contents) →
    dictHas d "SMask" = true →
    lookupObj (pdfLoop env quality true T refs ctx p).ctx r =
      some (PdfObj.rawStream d contents) := by
  intro refs
  induction refs with
  | nil => intro ctx p r d contents hlr _; simpa [pdfLoop] using hlr
  | cons q rest ih =>
    intro ctx p r d contents hlr hmask
    simp only [pdfLoop]
    by_cases hq : q = r
    · subst hq
      rw [hlr]
      simp only []
      rw [if_pos (by simp [hmask])]
      exact ih ctx (p+1) q d contents hlr hmask
    · cases hlq : lookupObj ctx q with
      | none => simpa using ih ctx (p+1) r d contents hlr hmask
      | some obj =>
        cases obj with
        | rawStream dq cq =>
          simp only []
          by_cases hskipq : (true && dictHas dq "SMask") = true
          · rw [if_pos hskipq]
            exact ih ctx (p+1) r d contents hlr hmask
          · rw [if_neg hskipq]
            cases hcq : compressImage env ⟨"image/jpeg", cq⟩ quality with
            | none => simpa using ih ctx (p+1) r d contents hlr hmask
            | some c =>
              simp only []
              by_cases hlt : c.bytes.length < cq.length
              · rw [if_pos hlt]
                have hlr2 : lookupObj (ctxAssign ctx q
                    (PdfObj.rawStream (replacementDict dq) (env.flate c.bytes))) r =
                    some (PdfObj.rawStream d contents) := by
                  rw [lookupObj_assign_ne ctx q r _ hq]
                  exact hlr
                exact ih _ (p+1) r d contents hlr2 hmask
              · rw [if_neg hlt]
                exact ih ctx (p+1) r d contents hlr hmask
        | dict dq => simpa using ih ctx (p+1) r d contents hlr hmask
        | other => simpa using ih ctx (p+1) r d contents hlr hmask

/-- Every PDF progress value reported by the loop is `pdfProg T k` for some
step index `k` inside the worklist range. -/
theorem pdfLoop_trace_shape (env : Env) (quality : Nat) (skipPng : Bool) (T : Nat) :
    ∀ (refs : List Nat) (ctx : PdfCtx) (p : Nat),
    ∀ x ∈ (pdfLoop env quality skipPng T refs ctx p).trace,
    ∃ k, p < k ∧ k ≤ p + refs.length ∧ x = pdfProg T k := by
  intro refs
  induction refs with
  | nil => intro ctx p x hx; simp [pdfLoop] at hx
  | cons q rest ih =>
    intro ctx p x hx
    simp only [pdfLoop] at hx
    cases hlq : lookupObj ctx q with
    | none =>
      rw [hlq] at hx
      simp only [] at hx
      obtain ⟨k, h1, h2, h3⟩ := ih ctx (p+1) x hx
      exact ⟨k, by omega, by simp only [List.length_cons]; omega, h3⟩
    | some obj =>
      rw [hlq] at hx
      cases obj with
      | rawStream d contents =>
        simp only [] at hx
        by_cases hskip : (skipPng && dictHas d "SMask") = true
        · rw [if_pos hskip] at hx
          obtain ⟨k, h1, h2, h3⟩ := ih ctx (p+1) x hx
          exact ⟨k, by omega, by simp only [List.length_cons]; omega, h3⟩
        · rw [if_neg hskip] at hx
          cases hc : compressImage env ⟨"image/jpeg", contents⟩ quality with
          | none =>
            rw [hc] at hx
            simp only [List.mem_cons] at hx
            rcases hx with hx | hx
            · exact ⟨p+1, by omega, by simp only [List.length_cons]; omega, hx⟩
            · obtain ⟨k, h1, h2, h3⟩ := ih ctx (p+1) x hx
              exact ⟨k, by omega, by simp only [List.length_cons]; omega, h3⟩
          | some c =>
            rw [hc] at hx
            simp only [List.mem_cons] at hx
            rcases hx with hx | hx
            · exact ⟨p+1, by omega, by simp only [List.length_cons]; omega, hx⟩
            · obtain ⟨k, h1, h2, h3⟩ := ih (if c.bytes.length < contents.length
                then ctxAssign ctx q
                  (PdfObj.rawStream (replacementDict d) (env.flate c.bytes))
                else ctx) (p+1) x hx
              exact ⟨k, by omega, by simp only [List.length_cons]; omega, h3⟩
      | dict d =>
        simp only [] at hx
        obtain ⟨k, h1, h2, h3⟩ := ih ctx (p+1) x hx
        exact ⟨k, by omega, by simp only [List.length_cons]; omega, h3⟩
      | other =>
        simp only [] at hx
        obtain ⟨k, h1, h2, h3⟩ := ih ctx (p+1) x hx
        exact ⟨k, by omega, by simp only [List.length_cons]; omega, h3⟩

/-- The PDF progress trace is non-decreasing and bounded below by the next
step's value. -/
theorem pdfLoop_trace_pw (env : Env) (quality : Nat) (skipPng : Bool) (T : Nat) :
    ∀ (refs : List Nat) (ctx : PdfCtx) (p : Nat),
    ((pdfLoop env quality skipPng T refs ctx p).trace).Pairwise (· ≤ ·) ∧
    ∀ x ∈ (pdfLoop env quality skipPng T refs ctx p).trace, pdfProg T (p+1) ≤ x := by
  intro refs
  induction refs with
  | nil => intro ctx p; simp [pdfLoop]
  | cons q rest ih =>
    intro ctx p
    simp only [pdfLoop]
    cases hlq : lookupObj ctx q with
    | none =>
      refine ⟨(ih ctx (p+1)).1, fun x hx => ?_⟩
      exact le_trans (pdfProg_mono T (p+1) (p+2) (by omega)) ((ih ctx (p+1)).2 x hx)
    | some obj =>
      cases obj with
      | rawStream d contents =>
        simp only []
        by_cases hskip : (skipPng && dictHas d "SMask") = true
        · rw [if_pos hskip]
          refine ⟨(ih ctx (p+1)).1, fun x hx => ?_⟩
          exact le_trans (pdfProg_mono T (p+1) (p+2) (by omega)) ((ih ctx (p+1)).2 x hx)
        · rw [if_neg hskip]
          cases hc : compressImage env ⟨"image/jpeg", contents⟩ quality with
          | none =>
            simp only [List.pairwise_cons, List.mem_cons]
            obtain ⟨hpw, hlb⟩ := ih ctx (p+1)
            refine ⟨⟨fun x hx =>
              le_trans (pdfProg_mono T (p+1) (p+2) (by omega)) (hlb x hx), hpw⟩,
              fun x hx => ?_⟩
            rcases hx with hx | hx
            · omega
            · exact le_trans (pdfProg_mono T (p+1) (p+2) (by omega)) (hlb x hx)
          | some c =>
            simp only [List.pairwise_cons, List.mem_cons]
            obtain ⟨hpw, hlb⟩ := ih (if c.bytes.length < contents.length
              then ctxAssign ctx q
                (PdfObj.rawStream (replacementDict d) (env.flate c.bytes))
              else ctx) (p+1)
            refine ⟨⟨fun x hx =>
              le_trans (pdfProg_mono T (p+1) (p+2) (by omega)) (hlb x hx), hpw⟩,
              fun x hx => ?_⟩
            rcases hx with hx | hx
            · omega
            · exact le_trans (pdfProg_mono T (p+1) (p+2) (by omega)) (hlb x hx)
      | dict d =>
        refine ⟨(ih ctx (p+1)).1, fun x hx => ?_⟩
        exact le_trans (pdfProg_mono T (p+1) (p+2) (by omega)) ((ih ctx (p+1)).2 x hx)
      | other =>
        refine ⟨(ih ctx (p+1)).1, fun x hx => ?_⟩
        exact le_trans (pdfProg_mono T (p+1) (p+2) (by omega)) ((ih ctx (p+1)).2 x hx)

/-- Each worklist reference triggers at most one recompressor invocation:
the invocation list is a sublist of the worklist. -/
theorem pdfLoop_calls_sublist (env : Env) (quality : Nat) (skipPng : Bool) (T : Nat) :
    ∀ (refs : List Nat) (ctx : PdfCtx) (p : Nat),
    List.Sublist (pdfLoop env quality skipPng T refs ctx p).calls refs := by
  intro refs
  induction refs with
  | nil => intro ctx p; simp [pdfLoop]
  | cons q rest ih =>
    intro ctx p
    simp only [pdfLoop]
    cases hlq : lookupObj ctx q with
    | none => exact List.Sublist.cons q (ih ctx (p+1))
    | some obj =>
      cases obj with
      | rawStream d contents =>
        simp only []
        by_cases hskip : (skipPng && dictHas d "SMask") = true
        · rw [if_pos hskip]
          exact List.Sublist.cons q (ih ctx (p+1))
        · rw [if_neg hskip]
          cases hc : compressImage env ⟨"image/jpeg", contents⟩ quality with
          | none => exact List.Sublist.cons₂ q (ih ctx (p+1))
          | some c =>
            simp only []
            exact List.Sublist.cons₂ q (ih _ (p+1))
      | dict d => exact List.Sublist.cons q (ih ctx (p+1))
      | other => exact List.Sublist.cons q (ih ctx (p+1))

/-- Adding to the reference set preserves distinctness. -/
theorem setAdd_nodup (s : List Nat) (r : Nat) (h : s.Nodup) : (setAdd s r).Nodup := by
  by_cases hm : r ∈ s
  · simpa [setAdd, hm] using h
  · simp only [setAdd, if_neg hm]
    simp [List.nodup_append, h, hm]

/-- Scanning a page's XObject entries preserves distinctness of the set. -/
theorem collectEntries_nodup (ctx : PdfCtx) :
    ∀ (entries : List (String × XEntry)) (acc : List Nat), acc.Nodup →
    (collectEntries ctx acc entries).Nodup := by
  intro entries
  induction entries with
  | nil => intro acc h; simpa [collectEntries] using h
  | cons e rest ih =>
    intro acc h
    obtain ⟨nm, x⟩ := e
    cases x with
    | nonRef => simpa [collectEntries] using ih acc h
    | ref r =>
      simp only [collectEntries]
      by_cases hi : isImageObj ctx r = true
      · rw [if_pos hi]
        exact ih (setAdd acc r) (setAdd_nodup acc r h)
      · rw [if_neg hi]
        exact ih acc h

/-- Scanning a page preserves distinctness of the set. -/
theorem collectFromPage_nodup (ctx : PdfCtx) (acc : List Nat) (pg : Page)
    (h : acc.Nodup) : (collectFromPage ctx acc pg).Nodup := by
  cases pg with
  | mk res =>
    cases res with
    | none => simpa [collectFromPage] using h
    | some r =>
      cases r with
      | mk xo =>
        cases xo with
        | none => simpa [collectFromPage] using h
        | some entries =>
          simpa [collectFromPage] using collectEntries_nodup ctx entries acc h

/-- The collected image reference set is duplicate free. -/
theorem collectImageRefs_nodup (doc : PdfDocM) : (collectImageRefs doc).Nodup := by
  have hgen : ∀ (pages : List Page) (acc : List Nat), acc.Nodup →
      (pages.foldl (collectFromPage doc.objs) acc).Nodup := by
    intro pages
    induction pages with
    | nil => intro acc h; simpa using h
    | cons pg rest ih =>
      intro acc h
      simpa [List.foldl_cons] using ih _ (collectFromPage_nodup doc.objs acc pg h)
  exact hgen doc.pages [] (by simp)

/-- The last element of a list ending in a singleton. -/
theorem getLast_app_single (l : List Nat) (a : Nat) : (l ++ [a]).getLast? = some a :=
  List.getLast?_concat l

/-- `replacementDict` carries `Width` forward unchanged. -/
theorem replacementDict_width (d : PdfDict) :
    dictGet (replacementDict d) "Width" = dictGet d "Width" := by
  cases hw : dictGet d "Width" with
  | none =>
    cases hh : dictGet d "Height" with
    | none => simp [replacementDict, hw, hh, dictGet]
    | some vh => simp [replacementDict, hw, hh, dictGet]
  | some vw =>
    cases hh : dictGet d "Height" with
    | none => simp [replacementDict, hw, hh, dictGet]
    | some vh => simp [replacementDict, hw, hh, dictGet]

/-- `replacementDict` carries `Height` forward unchanged. -/
theorem replacementDict_height (d : PdfDict) :
    dictGet (replacementDict d) "Height" = dictGet d "Height" := by
  cases hw : dictGet d "Width" with
  | none =>
    cases hh : dictGet d "Height" with
    | none => simp [replacementDict, hw, hh, dictGet]
    | some vh => simp [replacementDict, hw, hh, dictGet]
  | some vw =>
    cases hh : dictGet d "Height" with
    | none => simp [replacementDict, hw, hh, dictGet]
    | some vh => simp [replacementDict, hw, hh, dictGet]

/-- `replacementDict` sets `BitsPerComponent` with default 8. -/
theorem replacementDict_bpc (d : PdfDict) :
    dictGet (replacementDict d) "BitsPerComponent" =
      some ((dictGet d "BitsPerComponent").getD (PdfVal.num 8)) := by
  cases hw : dictGet d "Width" with
  | none =>
    cases hh : dictGet d "Height" with
    | none => simp [replacementDict, hw, hh, dictGet]
    | some vh => simp [replacementDict, hw, hh, dictGet]
  | some vw =>
    cases hh : dictGet d "Height" with
    | none => simp [replacementDict, hw, hh, dictGet]
    | some vh => simp [replacementDict, hw, hh, dictGet]

/-- `replacementDict` sets `ColorSpace` with default `DeviceRGB`. -/
theorem replacementDict_cs (d : PdfDict) :
    dictGet (replacementDict d) "ColorSpace" =
      some ((dictGet d "ColorSpace").getD (PdfVal.name "DeviceRGB")) := by
  cases hw : dictGet d "Width" with
  | none =>
    cases hh : dictGet d "Height" with
    | none => simp [replacementDict, hw, hh, dictGet]
    | some vh => simp [replacementDict, hw, hh, dictGet]
  | some vw =>
    cases hh : dictGet d "Height" with
    | none => simp [replacementDict, hw, hh, dictGet]
    | some vh => simp [replacementDict, hw, hh, dictGet]

/-- `replacementDict` always tags the stream with the `DCTDecode` filter. -/
theorem replacementDict_filter (d : PdfDict) :
    dictGet (replacementDict d) "Filter" = some (PdfVal.name "DCTDecode") := by
  cases hw : dictGet d "Width" with
  | none =>
    cases hh : dictGet d "Height" with
    | none => simp [replacementDict, hw, hh, dictGet]
    | some vh => simp [replacementDict, hw, hh, dictGet]
  | some vw =>
    cases hh : dictGet d "Height" with
    | none => simp [replacementDict, hw, hh, dictGet]
    | some vh => simp [replacementDict, hw, hh, dictGet]

/-- A concrete environment whose codec always decodes to a 1x1 image and
encodes to the single byte `[7]`, and whose zero-image PDF save emits 8
bytes. -/
def envW : Env :=
  { decode := fun _ => some (1, 1)
    encode := fun _ _ _ => some [7]
    flate := fun b => b
    generate := fun fs => ⟨"", (fs.map (fun e => e.2.bytes)).flatten⟩
    save := fun _ => [1, 2]
    save0 := fun _ => [0, 0, 0, 0, 0, 0, 0, 0] }

/-- A concrete 4-byte container input file. -/
def fileW : JFile := ⟨"doc.hwpx", ⟨"", [0, 0, 0, 0]⟩⟩

/-- A concrete 4-byte PDF input file. -/
def filePdfW : JFile := ⟨"doc.pdf", ⟨"application/pdf", [0, 0, 0, 0]⟩⟩

/-- A concrete ZIP entry table with one 3-byte JPEG entry. -/
def stW : List (String × Blob) := [("img/a.jpg", ⟨"", [1, 2, 3]⟩)]

/-- A concrete ZIP entry table with one 3-byte PNG entry. -/
def stPngW : List (String × Blob) := [("img/a.png", ⟨"", [1, 2, 3]⟩)]

/-- A concrete image-object dictionary without a soft mask. -/
def dictW : PdfDict := [("Subtype", PdfVal.name "Image"), ("Width", PdfVal.num 9)]

/-- A concrete image-object dictionary carrying a soft mask. -/
def dictSmW : PdfDict := [("Subtype", PdfVal.name "Image"), ("SMask", PdfVal.num 5)]

/-- A concrete object table with one raw-stream image at reference 1. -/
def ctxW : PdfCtx := [(1, PdfObj.rawStream dictW [1, 2, 3])]

/-- A concrete object table with one soft-masked image at reference 1. -/
def ctxSmW : PdfCtx := [(1, PdfObj.rawStream dictSmW [1, 2, 3])]

/-- A concrete one-page document whose page references image 1. -/
def docW : PdfDocM := ⟨ctxW, [⟨some ⟨some [("Im1", XEntry.ref 1)]⟩⟩]⟩

/-- A concrete document with no pages and no objects. -/
def docEmptyW : PdfDocM := ⟨[], []⟩

/-- C1: in both walkers an asset's bytes are replaced iff the recompressed
output is strictly smaller than the original asset bytes; otherwise the
original bytes are kept unchanged. -/
theorem C1_replace_iff_smaller :
    (∀ (env : Env) (quality : Nat) (skipPng : Bool) (n : Nat)
       (pre post : List String) (st : List (String × Blob)) (i : Nat)
       (path : String) (c : CompressOut),
      path ∉ pre → path ∉ post → path ∈ st.map Prod.fst →
      (skipPng && strEndsWith (strToLower path) ".png") = false →
      compressImage env (getFile st path) quality = some c →
      getFile (zipLoop env quality skipPng n (pre ++ path :: post) st i).files path =
        (if c.bytes.length < (getFile st path).bytes.length
         then ⟨c.mime, c.bytes⟩ else getFile st path)) ∧
    (∀ (env : Env) (quality : Nat) (skipPng : Bool) (T : Nat)
       (pre post : List Nat) (ctx : PdfCtx) (p r : Nat)
       (d : PdfDict) (contents : List Nat) (c : CompressOut),
      r ∉ pre → r ∉ post →
      lookupObj ctx r = some (PdfObj.rawStream d contents) →
      (skipPng && dictHas d "SMask") = false →
      compressImage env ⟨"image/jpeg", contents⟩ quality = some c →
      lookupObj (pdfLoop env quality skipPng T (pre ++ r :: post) ctx p).ctx r =
        (if c.bytes.length < contents.length
         then some (PdfObj.rawStream (replacementDict d) (env.flate c.bytes))
         else some (PdfObj.rawStream d contents))) := by
  constructor
  · intro env quality skipPng n pre post st i path c hpre hpost hkey hskip hc
    rw [zipLoop_at env quality skipPng n pre post st i path hpre hpost hkey]
    simp [zipStep, hskip, hc]
  · intro env quality skipPng T pre post ctx p r d contents c hpre hpost hlr hskip hc
    rw [pdfLoop_at env quality skipPng T pre post ctx p r d contents hpre hpost hlr]
    have hstep : pdfStep env quality skipPng d contents =
        (if c.bytes.length < contents.length
         then PdfObj.rawStream (replacementDict d) (env.flate c.bytes)
         else PdfObj.rawStream d contents) := by
      simp [pdfStep, hskip, hc]
    rw [hstep, apply_ite some]

/-- Witness for C1: a 1-byte recompression of a 3-byte asset is accepted in
both walkers. -/
theorem C1_replace_iff_smaller_witness :
    getFile (zipLoop envW 70 false 1 ["img/a.jpg"] stW 0).files "img/a.jpg" =
      ⟨"image/jpeg", [7]⟩ ∧
    lookupObj (pdfLoop envW 70 false 1 [1] ctxW 0).ctx 1 =
      some (PdfObj.rawStream (replacementDict dictW) [7]) := by
  constructor
  · have h := C1_replace_iff_smaller.1 envW 70 false 1 [] [] stW 0 "img/a.jpg"
      ⟨"image/jpeg", [7], ⟨1, 1, true, [1, 2, 3]⟩⟩
      (by simp) (by simp) (by decide) (by decide) (by decide)
    exact h.trans (by decide)
  · have h := C1_replace_iff_smaller.2 envW 70 false 1 [] [] ctxW 0 1 dictW [1, 2, 3]
      ⟨"image/jpeg", [7], ⟨1, 1, true, [1, 2, 3]⟩⟩
      (by simp) (by simp) (by decide) (by decide) (by decide)
    exact h.trans (by decide)

/-- C4: with `skipAlpha = true` no `.png`-named container entry and no
soft-masked PDF image object is ever mutated; with `skipAlpha = false`
both kinds of assets can be mutated. -/
theorem C4_skip_alpha :
    (∀ (env : Env) (quality : Nat) (n : Nat) (paths : List String)
       (st : List (String × Blob)) (i : Nat) (path : String),
      strEndsWith (strToLower path) ".png" = true →
      getFile (zipLoop env quality true n paths st i).files path = getFile st path) ∧
    (∀ (env : Env) (quality : Nat) (T : Nat) (refs : List Nat) (ctx : PdfCtx)
       (p r : Nat) (d : PdfDict) (contents : List Nat),
      lookupObj ctx r = some (PdfObj.rawStream d contents) →
      dictHas d "SMask" = true →
      lookupObj (pdfLoop env quality true T refs ctx p).ctx r =
        some (PdfObj.rawStream d contents)) ∧
    getFile (zipLoop envW 70 false 1 ["img/a.png"] stPngW 0).files "img/a.png" ≠
      getFile stPngW "img/a.png" ∧
    lookupObj (pdfLoop envW 70 false 1 [1] ctxSmW 0).ctx 1 ≠ lookupObj ctxSmW 1 := by
  refine ⟨?_, ?_, by decide, by decide⟩
  · intro env quality n paths st i path hpng
    exact zipLoop_png_stable env quality n paths st i path hpng
  · intro env quality T refs ctx p r d contents hlr hmask
    exact pdfLoop_smask_stable env quality T refs ctx p r d contents hlr hmask

/-- Witness for C4: with `skipAlpha = true` the concrete PNG entry and the
concrete soft-masked image object are returned unchanged. -/
theorem C4_skip_alpha_witness :
    getFile (zipLoop envW 70 true 1 ["img/a.png"] stPngW 0).files "img/a.png" =
      getFile stPngW "img/a.png" ∧
    lookupObj (pdfLoop envW 70 true 1 [1] ctxSmW 0).ctx 1 =
      some (PdfObj.rawStream dictSmW [1, 2, 3]) :=
  ⟨C4_skip_alpha.1 envW 70 1 ["img/a.png"] stPngW 0 "img/a.png" (by decide),
   C4_skip_alpha.2.1 envW 70 1 [1] ctxSmW 0 1 dictSmW [1, 2, 3] (by decide) (by decide)⟩

/-- C5: the PDF walker collects image references into a duplicate-free set
and invokes the recompressor at most once per unique reference. -/
theorem C5_dedup_unique_invocation (env : Env) (doc : PdfDocM)
    (quality : Nat) (skipPng : Bool) :
    (collectImageRefs doc).Nodup ∧
    ∀ r, ((pdfLoop env quality skipPng (collectImageRefs doc).length
      (collectImageRefs doc) doc.objs 0).calls).count r ≤ 1 := by
  refine ⟨collectImageRefs_nodup doc, fun r => ?_⟩
  have h1 := (pdfLoop_calls_sublist env quality skipPng
    (collectImageRefs doc).length (collectImageRefs doc) doc.objs 0).count_le r
  have h2 := List.nodup_iff_count_le_one.mp (collectImageRefs_nodup doc) r
  omega

/-- C6: a failed per-asset recompression leaves the asset byte-for-byte
unchanged and a recorded console error, and both walkers still finish the
run, reporting 100 as the final progress value. -/
theorem C6_partial_failure_tolerance :
    (∀ (env : Env) (quality : Nat) (skipPng : Bool) (n : Nat)
       (pre post : List String) (st : List (String × Blob)) (i : Nat) (path : String),
      path ∉ pre → path ∉ post → path ∈ st.map Prod.fst →
      (skipPng && strEndsWith (strToLower path) ".png") = false →
      compressImage env (getFile st path) quality = none →
      getFile (zipLoop env quality skipPng n (pre ++ path :: post) st i).files path =
        getFile st path ∧
      zipErrMsg path ∈ (zipLoop env quality skipPng n (pre ++ path :: post) st i).errors) ∧
    (∀ (env : Env) (file : JFile) (zipFiles : List (String × Blob))
       (quality : Nat) (skipPng : Bool),
      (optimizeZipBasedDoc env file zipFiles quality skipPng).progress.getLast? = some 100) ∧
    (∀ (env : Env) (quality : Nat) (skipPng : Bool) (T : Nat)
       (pre post : List Nat) (ctx : PdfCtx) (p r : Nat)
       (d : PdfDict) (contents : List Nat),
      r ∉ pre → r ∉ post →
      lookupObj ctx r = some (PdfObj.rawStream d contents) →
      (skipPng && dictHas d "SMask") = false →
      compressImage env ⟨"image/jpeg", contents⟩ quality = none →
      lookupObj (pdfLoop env quality skipPng T (pre ++ r :: post) ctx p).ctx r =
        some (PdfObj.rawStream d contents) ∧
      pdfErrMsg ∈ (pdfLoop env quality skipPng T (pre ++ r :: post) ctx p).errors) ∧
    (∀ (env : Env) (file : JFile) (doc : PdfDocM) (quality : Nat) (skipPng : Bool),
      (optimizePDF env file doc quality skipPng).progress.getLast? = some 100) := by
  refine ⟨?_, ?_, ?_, ?_⟩
  · intro env quality skipPng n pre post st i path hpre hpost hkey hskip hc
    constructor
    · rw [zipLoop_at env quality skipPng n pre post st i path hpre hpost hkey]
      simp [zipStep, hskip, hc]
    · exact zipLoop_err env quality skipPng n pre post st i path hpre hskip hc
  · intro env file zipFiles quality skipPng
    simp only [optimizeZipBasedDoc]
    by_cases h : ((zipFiles.map Prod.fst).filter isImagePath).length = 0
    · rw [if_pos h]
      rfl
    · rw [if_neg h]
      simp only []
      show ((5 :: (zipLoop env quality skipPng
          ((zipFiles.map Prod.fst).filter isImagePath).length
          ((zipFiles.map Prod.fst).filter isImagePath) zipFiles 0).trace) ++
          [100]).getLast? = some 100
      exact getLast_app_single _ _
  · intro env quality skipPng T pre post ctx p r d contents hpre hpost hlr hskip hc
    constructor
    · rw [pdfLoop_at env quality skipPng T pre post ctx p r d contents hpre hpost hlr]
      simp [pdfStep, hskip, hc]
    · exact pdfLoop_err env quality skipPng T pre post ctx p r d contents hpre hlr hskip hc
  · intro env file doc quality skipPng
    simp only [optimizePDF]
    by_cases h : (collectImageRefs doc).length = 0
    · rw [if_pos h]
      rfl
    · rw [if_neg h]
      simp only []
      show ((10 :: ((pdfLoop env quality skipPng (collectImageRefs doc).length
          (collectImageRefs doc) doc.objs 0).trace ++ ([95] ++ [100])))).getLast? =
          some 100
      rw [← List.append_assoc]
      show (((10 :: ((pdfLoop env quality skipPng (collectImageRefs doc).length
          (collectImageRefs doc) doc.objs 0).trace ++ [95])) ++ [100])).getLast? =
          some 100
      exact getLast_app_single _ _

/-- Witness for C6: the always-failing codec leaves the concrete assets
unchanged in both walkers and records the error lines. -/
theorem C6_partial_failure_tolerance_witness :
    (getFile (zipLoop ⟨fun _ => none, fun _ _ _ => none, id, fun _ => ⟨"", []⟩,
        fun _ => [], fun _ => []⟩ 70 false 1 ["img/a.jpg"] stW 0).files "img/a.jpg" =
      getFile stW "img/a.jpg" ∧
     zipErrMsg "img/a.jpg" ∈ (zipLoop ⟨fun _ => none, fun _ _ _ => none, id,
        fun _ => ⟨"", []⟩, fun _ => [], fun _ => []⟩ 70 false 1
        ["img/a.jpg"] stW 0).errors) ∧
    (lookupObj (pdfLoop ⟨fun _ => none, fun _ _ _ => none, id, fun _ => ⟨"", []⟩,
        fun _ => [], fun _ => []⟩ 70 false 1 [1] ctxW 0).ctx 1 =
      some (PdfObj.rawStream dictW [1, 2, 3]) ∧
     pdfErrMsg ∈ (pdfLoop ⟨fun _ => none, fun _ _ _ => none, id, fun _ => ⟨"", []⟩,
        fun _ => [], fun _ => []⟩ 70 false 1 [1] ctxW 0).errors) :=
  ⟨C6_partial_failure_tolerance.1 ⟨fun _ => none, fun _ _ _ => none, id,
      fun _ => ⟨"", []⟩, fun _ => [], fun _ => []⟩ 70 false 1 [] []
      stW 0 "img/a.jpg" (by simp) (by simp) (by decide) (by decide) (by decide),
   C6_partial_failure_tolerance.2.2.1 ⟨fun _ => none, fun _ _ _ => none, id,
      fun _ => ⟨"", []⟩, fun _ => [], fun _ => []⟩ 70 false 1 [] []
      ctxW 0 1 dictW [1, 2, 3] (by simp) (by simp) (by decide) (by decide) (by decide)⟩

/-- C7: the recompressor targets WEBP for transparency-carrying source
types (PNG/GIF) without white compositing, and otherwise targets JPEG
after compositing over an opaque white background. -/
theorem C7_target_encoding :
    (∀ (env : Env) (blob : Blob) (quality : Nat) (out : CompressOut),
      compressImage env blob quality = some out →
      out.mime = targetMimeOf blob.type ∧
      (isTransparentFormat blob.type = true →
        out.mime = "image/webp" ∧ out.canvas.whiteFill = false) ∧
      (isTransparentFormat blob.type = false →
        out.mime = "image/jpeg" ∧ out.canvas.whiteFill = true)) ∧
    isTransparentFormat "image/png" = true ∧
    isTransparentFormat "image/gif" = true ∧
    isTransparentFormat "image/jpeg" = false := by
  refine ⟨?_, by decide, by decide, by decide⟩
  intro env blob quality out h
  simp only [compressImage] at h
  cases hd : env.decode blob.bytes with
  | none => rw [hd] at h; simp at h
  | some wh =>
    rw [hd] at h
    simp only [] at h
    cases he : env.encode (targetMimeOf blob.type) quality
        ⟨wh.1, wh.2, targetMimeOf blob.type == "image/jpeg", blob.bytes⟩ with
    | none => rw [he] at h; simp at h
    | some o =>
      rw [he] at h
      simp only [Option.some.injEq] at h
      subst h
      refine ⟨rfl, fun htr => ?_, fun htr => ?_⟩
      · constructor
        · simp [targetMimeOf, htr]
        · simp [targetMimeOf, htr]
      · constructor
        · simp [targetMimeOf, htr]
        · simp [targetMimeOf, htr]

/-- Witness for C7: a PNG-typed blob is recompressed to WEBP with no white
compositing. -/
theorem C7_target_encoding_witness :
    compressImage envW ⟨"image/png", [1, 2, 3]⟩ 70 =
      some ⟨"image/webp", [7], ⟨1, 1, false, [1, 2, 3]⟩⟩ ∧
    (⟨"image/webp", [7], ⟨1, 1, false, [1, 2, 3]⟩⟩ : CompressOut).mime = "image/webp" ∧
    (⟨"image/webp", [7], ⟨1, 1, false, [1, 2, 3]⟩⟩ : CompressOut).canvas.whiteFill = false :=
  ⟨by decide,
   ((C7_target_encoding.1 envW ⟨"image/png", [1, 2, 3]⟩ 70
      ⟨"image/webp", [7], ⟨1, 1, false, [1, 2, 3]⟩⟩ (by decide)).2.1 (by decide)).1,
   ((C7_target_encoding.1 envW ⟨"image/png", [1, 2, 3]⟩ 70
      ⟨"image/webp", [7], ⟨1, 1, false, [1, 2, 3]⟩⟩ (by decide)).2.1 (by decide)).2⟩

/-- C8: an accepted PDF replacement stream carries forward `Width` and
`Height`, defaults `BitsPerComponent` to 8 and `ColorSpace` to `DeviceRGB`
when absent, always carries the fixed `DCTDecode` filter, and is assigned
onto the same reference. -/
theorem C8_replacement_stream :
    ∀ (env : Env) (quality : Nat) (skipPng : Bool) (T : Nat)
      (pre post : List Nat) (ctx : PdfCtx) (p r : Nat)
      (d : PdfDict) (contents : List Nat) (c : CompressOut),
    r ∉ pre → r ∉ post →
    lookupObj ctx r = some (PdfObj.rawStream d contents) →
    (skipPng && dictHas d "SMask") = false →
    compressImage env ⟨"image/jpeg", contents⟩ quality = some c →
    c.bytes.length < contents.length →
    lookupObj (pdfLoop env quality skipPng T (pre ++ r :: post) ctx p).ctx r =
      some (PdfObj.rawStream (replacementDict d) (env.flate c.bytes)) ∧
    dictGet (replacementDict d) "Width" = dictGet d "Width" ∧
    dictGet (replacementDict d) "Height" = dictGet d "Height" ∧
    dictGet (replacementDict d) "BitsPerComponent" =
      some ((dictGet d "BitsPerComponent").getD (PdfVal.num 8)) ∧
    dictGet (replacementDict d) "ColorSpace" =
      some ((dictGet d "ColorSpace").getD (PdfVal.name "DeviceRGB")) ∧
    dictGet (replacementDict d) "Filter" = some (PdfVal.name "DCTDecode") := by
  intro env quality skipPng T pre post ctx p r d contents c hpre hpost hlr hskip hc hlt
  refine ⟨?_, replacementDict_width d, replacementDict_height d,
    replacementDict_bpc d, replacementDict_cs d, replacementDict_filter d⟩
  rw [pdfLoop_at env quality skipPng T pre post ctx p r d contents hpre hpost hlr]
  simp [pdfStep, hskip, hc, hlt]

/-- Witness for C8: the concrete accepted image at reference 1 is replaced
by the constructed stream. -/
theorem C8_replacement_stream_witness :
    lookupObj (pdfLoop envW 70 false 1 [1] ctxW 0).ctx 1 =
      some (PdfObj.rawStream (replacementDict dictW) [7]) ∧
    dictGet (replacementDict dictW) "Filter" = some (PdfVal.name "DCTDecode") := by
  have h := C8_replacement_stream envW 70 false 1 [] [] ctxW 0 1 dictW [1, 2, 3]
    ⟨"image/jpeg", [7], ⟨1, 1, true, [1, 2, 3]⟩⟩
    (by simp) (by simp) (by decide) (by decide) (by decide) (by decide)
  exact ⟨h.1, h.2.2.2.2.2⟩

/-- C10: every result of either walker reports the input file's size as
`originalSize`, the input file's name as `fileName`, and the returned
blob's byte length as `compressedSize`. -/
theorem C10_result_size_invariants (env : Env) (file : JFile)
    (zipFiles : List (String × Blob)) (doc : PdfDocM)
    (quality : Nat) (skipPng : Bool) :
    ((optimizeZipBasedDoc env file zipFiles quality skipPng).result.originalSize = file.size ∧
     (optimizeZipBasedDoc env file zipFiles quality skipPng).result.fileName = file.name ∧
     (optimizeZipBasedDoc env file zipFiles quality skipPng).result.compressedSize =
       (optimizeZipBasedDoc env file zipFiles quality skipPng).result.blob.size) ∧
    ((optimizePDF env file doc quality skipPng).result.originalSize = file.size ∧
     (optimizePDF env file doc quality skipPng).result.fileName = file.name ∧
     (optimizePDF env file doc quality skipPng).result.compressedSize =
       (optimizePDF env file doc quality skipPng).result.blob.size) := by
  constructor
  · simp only [optimizeZipBasedDoc]
    by_cases h : ((zipFiles.map Prod.fst).filter isImagePath).length = 0
    · rw [if_pos h]
      exact ⟨rfl, rfl, rfl⟩
    · rw [if_neg h]
      exact ⟨rfl, rfl, rfl⟩
  · simp only [optimizePDF]
    by_cases h : (collectImageRefs doc).length = 0
    · rw [if_pos h]
      exact ⟨rfl, rfl, by simp [Blob.size]⟩
    · rw [if_neg h]
      exact ⟨rfl, rfl, by simp [Blob.size]⟩

/-- Counterexample to C2: on a PDF with zero image objects the walker
re-serializes the document, so the returned bytes differ from the input
and the reduction percentage is not 0. -/
theorem C2_zero_images_counterexample :
    (optimizePDF envW filePdfW docEmptyW 70 true).result.blob.bytes ≠
      filePdfW.blob.bytes ∧
    (optimizePDF envW filePdfW docEmptyW 70 true).result.reductionPercentage ≠ 0 := by
  constructor
  · decide
  · intro hc
    have h2 : (optimizePDF envW filePdfW docEmptyW 70 true).result.reductionPercentage =
        ((4 : ℚ) - 8) / 4 * 100 := rfl
    rw [h2] at hc
    norm_num at hc

/-- C2 (amended): with zero eligible images the container walker returns
the input bytes unchanged with reduction 0, but the PDF walker returns the
re-serialized save output and an unclamped reduction computed from it. -/
theorem C2_zero_images_amended :
    (∀ (env : Env) (file : JFile) (zipFiles : List (String × Blob))
       (quality : Nat) (skipPng : Bool),
      (zipFiles.map Prod.fst).filter isImagePath = [] →
      (optimizeZipBasedDoc env file zipFiles quality skipPng).result.blob = file.blob ∧
      (optimizeZipBasedDoc env file zipFiles quality skipPng).result.reductionPercentage
        = 0) ∧
    (∀ (env : Env) (file : JFile) (doc : PdfDocM) (quality : Nat) (skipPng : Bool),
      collectImageRefs doc = [] →
      (optimizePDF env file doc quality skipPng).result.blob.bytes = env.save0 doc ∧
      (optimizePDF env file doc quality skipPng).result.reductionPercentage =
        ((file.size : ℚ) - ((env.save0 doc).length : ℚ)) / (file.size : ℚ) * 100) := by
  constructor
  · intro env file zipFiles quality skipPng h
    simp only [optimizeZipBasedDoc]
    rw [if_pos (by rw [h]; rfl)]
    exact ⟨rfl, rfl⟩
  · intro env file doc quality skipPng h
    simp only [optimizePDF]
    rw [if_pos (by rw [h]; rfl)]
    exact ⟨rfl, rfl⟩

/-- Witness for the amended C2 at concrete inputs. -/
theorem C2_zero_images_amended_witness :
    (optimizeZipBasedDoc envW fileW [("word/doc.xml", ⟨"", [9]⟩)] 70 true).result.blob =
      fileW.blob ∧
    (optimizePDF envW filePdfW docEmptyW 70 true).result.blob.bytes =
      envW.save0 docEmptyW :=
  ⟨(C2_zero_images_amended.1 envW fileW [("word/doc.xml", ⟨"", [9]⟩)] 70 true
      (by decide)).1,
   (C2_zero_images_amended.2 envW filePdfW docEmptyW 70 true (by decide)).1⟩

/-- Counterexample to C3: the PDF walker's zero-image return path computes
the reduction percentage without clamping, and it is negative when the
re-serialized output is larger than the input. -/
theorem C3_clamp_counterexample :
    (optimizePDF envW filePdfW docEmptyW 70 true).result.reductionPercentage < 0 := by
  have h2 : (optimizePDF envW filePdfW docEmptyW 70 true).result.reductionPercentage =
      ((4 : ℚ) - 8) / 4 * 100 := rfl
  rw [h2]
  norm_num

/-- C3 (amended): the reduction percentage is clamped to be non-negative on
every return path of the container walker and on the PDF walker's
with-images path; the PDF walker's zero-image path is unclamped. -/
theorem C3_reduction_clamped_amended :
    ∀ (env : Env) (file : JFile) (zipFiles : List (String × Blob))
      (doc : PdfDocM) (quality : Nat) (skipPng : Bool),
    0 ≤ (optimizeZipBasedDoc env file zipFiles quality skipPng).result.reductionPercentage ∧
    (collectImageRefs doc ≠ [] →
      0 ≤ (optimizePDF env file doc quality skipPng).result.reductionPercentage) := by
  intro env file zipFiles doc quality skipPng
  constructor
  · simp only [optimizeZipBasedDoc]
    by_cases h : ((zipFiles.map Prod.fst).filter isImagePath).length = 0
    · rw [if_pos h]
    · rw [if_neg h]
      exact le_max_left 0 _
  · intro hne
    simp only [optimizePDF]
    rw [if_neg (by simpa [List.length_eq_zero] using hne)]
    exact le_max_left 0 _

/-- Witness for the amended C3 at concrete inputs. -/
theorem C3_reduction_clamped_amended_witness :
    0 ≤ (optimizeZipBasedDoc envW fileW stW 70 false).result.reductionPercentage ∧
    0 ≤ (optimizePDF envW filePdfW docW 70 false).result.reductionPercentage :=
  ⟨(C3_reduction_clamped_amended envW fileW stW docW 70 false).1,
   (C3_reduction_clamped_amended envW fileW stW docW 70 false).2 (by decide)⟩

/-- All per-entry ZIP progress values lie in [10, 90]. -/
theorem zipLoop_trace_bounds (env : Env) (quality : Nat) (skipPng : Bool) (n : Nat)
    (paths : List String) (st : List (String × Blob)) (i : Nat)
    (h : i + paths.length ≤ n) :
    ∀ x ∈ (zipLoop env quality skipPng n paths st i).trace, 10 ≤ x ∧ x ≤ 90 := by
  intro x hx
  obtain ⟨k, h1, h2, h3⟩ := zipLoop_trace_shape env quality skipPng n paths st i x hx
  subst h3
  exact ⟨by simp [zipProg], zipProg_le_90 n k (by omega)⟩

/-- All per-image PDF progress values lie in [15, 90]. -/
theorem pdfLoop_trace_bounds (env : Env) (quality : Nat) (skipPng : Bool) (T : Nat)
    (refs : List Nat) (ctx : PdfCtx) (p : Nat)
    (h : p + refs.length ≤ T) :
    ∀ x ∈ (pdfLoop env quality skipPng T refs ctx p).trace, 15 ≤ x ∧ x ≤ 90 := by
  intro x hx
  obtain ⟨k, h1, h2, h3⟩ := pdfLoop_trace_shape env quality skipPng T refs ctx p x hx
  subst h3
  exact ⟨by simp [pdfProg], pdfProg_le_90 T k (by omega)⟩

/-- The container walker's progress sequence is non-decreasing, bounded by
100 and ends in 100. -/
theorem zip_progress_props (env : Env) (file : JFile)
    (zipFiles : List (String × Blob)) (quality : Nat) (skipPng : Bool) :
    ((optimizeZipBasedDoc env file zipFiles quality skipPng).progress).Pairwise (· ≤ ·) ∧
    (∀ x ∈ (optimizeZipBasedDoc env file zipFiles quality skipPng).progress, x ≤ 100) ∧
    (optimizeZipBasedDoc env file zipFiles quality skipPng).progress.getLast? =
      some 100 := by
  simp only [optimizeZipBasedDoc]
  by_cases h : ((zipFiles.map Prod.fst).filter isImagePath).length = 0
  · rw [if_pos h]
    refine ⟨?_, ?_, rfl⟩
    · show ([5, 100] : List Nat).Pairwise (· ≤ ·)
      decide
    · show ∀ x ∈ ([5, 100] : List Nat), x ≤ 100
      decide
  · rw [if_neg h]
    simp only []
    have hb := zipLoop_trace_bounds env quality skipPng
      ((zipFiles.map Prod.fst).filter isImagePath).length
      ((zipFiles.map Prod.fst).filter isImagePath) zipFiles 0 (by omega)
    have hpw := (zipLoop_trace_pw env quality skipPng
      ((zipFiles.map Prod.fst).filter isImagePath).length
      ((zipFiles.map Prod.fst).filter isImagePath) zipFiles 0).1
    refine ⟨?_, ?_, ?_⟩
    · refine List.Pairwise.cons ?_ ?_
      · intro x hx
        rcases List.mem_append.mp hx with hx | hx
        · have h10 := (hb x hx).1
          omega
        · simp at hx
          omega
      · refine List.pairwise_append.mpr ⟨hpw, by simp, ?_⟩
        intro a ha b hb2
        have h90 := (hb a ha).2
        simp at hb2
        omega
    · intro x hx
      rcases List.mem_cons.mp hx with hx | hx
      · omega
      · rcases List.mem_append.mp hx with hx2 | hx2
        · have h90 := (hb x hx2).2
          omega
        · simp at hx2
          omega
    · show ((5 :: (zipLoop env quality skipPng
          ((zipFiles.map Prod.fst).filter isImagePath).length
          ((zipFiles.map Prod.fst).filter isImagePath) zipFiles 0).trace) ++
          [100]).getLast? = some 100
      exact getLast_app_single _ _

/-- The PDF walker's progress sequence is non-decreasing, bounded by 100
and ends in 100. -/
theorem pdf_progress_props (env : Env) (file : JFile) (doc : PdfDocM)
    (quality : Nat) (skipPng : Bool) :
    ((optimizePDF env file doc quality skipPng).progress).Pairwise (· ≤ ·) ∧
    (∀ x ∈ (optimizePDF env file doc quality skipPng).progress, x ≤ 100) ∧
    (optimizePDF env file doc quality skipPng).progress.getLast? = some 100 := by
  simp only [optimizePDF]
  by_cases h : (collectImageRefs doc).length = 0
  · rw [if_pos h]
    refine ⟨?_, ?_, rfl⟩
    · show ([10, 100] : List Nat).Pairwise (· ≤ ·)
      decide
    · show ∀ x ∈ ([10, 100] : List Nat), x ≤ 100
      decide
  · rw [if_neg h]
    simp only []
    have hb := pdfLoop_trace_bounds env quality skipPng
      (collectImageRefs doc).length (collectImageRefs doc) doc.objs 0 (by omega)
    have hpw := (pdfLoop_trace_pw env quality skipPng
      (collectImageRefs doc).length (collectImageRefs doc) doc.objs 0).1
    refine ⟨?_, ?_, ?_⟩
    · refine List.Pairwise.cons ?_ ?_
      · intro x hx
        rcases List.mem_append.mp hx with hx | hx
        · have h15 := (hb x hx).1
          omega
        · simp at hx
          omega
      · refine List.pairwise_append.mpr ⟨hpw, by decide, ?_⟩
        intro a ha b hb2
        have h90 := (hb a ha).2
        simp at hb2
        omega
    · intro x hx
      rcases List.mem_cons.mp hx with hx | hx
      · omega
      · rcases List.mem_append.mp hx with hx2 | hx2
        · have h90 := (hb x hx2).2
          omega
        · simp at hx2
          omega
    · show ((10 :: ((pdfLoop env quality skipPng (collectImageRefs doc).length
          (collectImageRefs doc) doc.objs 0).trace ++ ([95] ++ [100])))).getLast? =
          some 100
      rw [← List.append_assoc]
      show (((10 :: ((pdfLoop env quality skipPng (collectImageRefs doc).length
          (collectImageRefs doc) doc.objs 0).trace ++ [95])) ++ [100])).getLast? =
          some 100
      exact getLast_app_single _ _

/-- C9: within one run the progress values delivered to the sink are
non-decreasing, lie in [0, 100], end in a final report of 100, and the
per-entry updates lie in [10, 90] for the container walker and [15, 90]
for the PDF walker. -/
theorem C9_progress_reports :
    (∀ (env : Env) (file : JFile) (zipFiles : List (String × Blob))
       (quality : Nat) (skipPng : Bool),
      ((optimizeZipBasedDoc env file zipFiles quality skipPng).progress).Pairwise (· ≤ ·) ∧
      (∀ x ∈ (optimizeZipBasedDoc env file zipFiles quality skipPng).progress, x ≤ 100) ∧
      (optimizeZipBasedDoc env file zipFiles quality skipPng).progress.getLast? =
        some 100) ∧
    (∀ (env : Env) (quality : Nat) (skipPng : Bool) (n : Nat) (paths : List String)
       (st : List (String × Blob)) (i : Nat), i + paths.length ≤ n →
      ∀ x ∈ (zipLoop env quality skipPng n paths st i).trace, 10 ≤ x ∧ x ≤ 90) ∧
    (∀ (env : Env) (file : JFile) (doc : PdfDocM) (quality : Nat) (skipPng : Bool),
      ((optimizePDF env file doc quality skipPng).progress).Pairwise (· ≤ ·) ∧
      (∀ x ∈ (optimizePDF env file doc quality skipPng).progress, x ≤ 100) ∧
      (optimizePDF env file doc quality skipPng).progress.getLast? = some 100) ∧
    (∀ (env : Env) (quality : Nat) (skipPng : Bool) (T : Nat) (refs : List Nat)
       (ctx : PdfCtx) (p : Nat), p + refs.length ≤ T →
      ∀ x ∈ (pdfLoop env quality skipPng T refs ctx p).trace, 15 ≤ x ∧ x ≤ 90) :=
  ⟨fun env file zipFiles quality skipPng =>
      zip_progress_props env file zipFiles quality skipPng,
   fun env quality skipPng n paths st i h =>
      zipLoop_trace_bounds env quality skipPng n paths st i h,
   fun env file doc quality skipPng => pdf_progress_props env file doc quality skipPng,
   fun env quality skipPng T refs ctx p h =>
      pdfLoop_trace_bounds env quality skipPng T refs ctx p h⟩

/-- Witness for C9 at concrete runs of both walkers. -/
theorem C9_progress_reports_witness :
    ((optimizeZipBasedDoc envW fileW stW 70 false).progress).Pairwise (· ≤ ·) ∧
    (∀ x ∈ (zipLoop envW 70 false 1 ["img/a.jpg"] stW 0).trace, 10 ≤ x ∧ x ≤ 90) ∧
    ((optimizePDF envW filePdfW docW 70 false).progress).Pairwise (· ≤ ·) ∧
    (∀ x ∈ (pdfLoop envW 70 false 1 [1] ctxW 0).trace, 15 ≤ x ∧ x ≤ 90) :=
  ⟨(C9_progress_reports.1 envW fileW stW 70 false).1,
   C9_progress_reports.2.1 envW 70 false 1 ["img/a.jpg"] stW 0 (by decide),
   (C9_progress_reports.2.2.1 envW filePdfW docW 70 false).1,
   C9_progress_reports.2.2.2 envW 70 false 1 [1] ctxW 0 (by decide)⟩
